import Mathlib

/-!
# Kokoro zh/en text-to-speech command-line example

A shallow embedding of `c-api-examples/kokoro-tts-zh-en-c-api.c`.

* A C string is the list of its bytes before the terminating NUL (`CStr`).
* A `float` sample is the rational number it denotes, and a `float` product is
  the exact product rounded to the nearest binary32 value, ties to even
  (`roundFloat32`). The speed is a `CFloat`: a rational, an infinity or a NaN.
* Calls into libc, winmm and the sherpa-onnx C API are answered by an
  environment `Env`; `main` returns its exit code together with the list of
  completed external calls, in order of completion.
-/

namespace Kokoro

/-! ## C strings -/

/-- The bytes of a C string, terminator excluded. -/
abbrev CStr := List Nat

/-- The bytes of an ASCII string literal. -/
def ascii (s : String) : CStr := s.toList.map Char.toNat

/-- The C string stored at the start of a buffer: the bytes before the first NUL. -/
def cstring (buf : List Nat) : CStr := buf.takeWhile (fun b => b ≠ 0)

/-- The libc `strstr(hay, needle)`: offset of the first occurrence of `needle`
in `hay`, `none` for a NULL result. -/
def strstr : CStr → CStr → Option Nat
  | [], needle => if needle = [] then some 0 else none
  | h :: t, needle =>
    if needle.isPrefixOf (h :: t) then some 0
    else (strstr t needle).map (fun k => k + 1)

/-- The libc `memcpy(s + p, src, n)`: the `n` bytes at offset `p` are overwritten
by the first `n` bytes of `src`. -/
def memcpy (s : CStr) (p : Nat) (src : CStr) (n : Nat) : CStr :=
  s.take p ++ src.take n ++ s.drop (p + n)

/-- The libc `snprintf(buf, size, ...)` for an already formatted text: at most
`size - 1` bytes are stored before the terminator. -/
def snprintf (size : Nat) (formatted : CStr) : CStr := formatted.take (size - 1)

/-! ## ReplaceAll and NormalizeTextInPlace (lines 84-110) -/

/-- The `while (p)` loop of `ReplaceAll`. `p` is the offset in `s` of the match
found by the last `strstr`, `changed` the flag. `none` when the fuel runs out. -/
def ReplaceAll.loop (from_ to_ : CStr) : Nat → CStr → Option Nat → Int → Option (CStr × Int)
  | 0, _, _, _ => none
  | _ + 1, s, none, changed => some (s, changed)
  | fuel + 1, s, some p, _ =>
    let s1 := memcpy s p to_ to_.length
    let q := p + to_.length
    ReplaceAll.loop from_ to_ fuel s1 ((strstr (s1.drop q) from_).map (fun k => q + k)) 1

/-- The function `ReplaceAll(s, from, to)`: the buffer afterwards and the returned flag. -/
def ReplaceAll (s from_ to_ : CStr) : Option (CStr × Int) :=
  let from_len := from_.length
  let to_len := to_.length
  if from_len = 0 ∨ from_len ≠ to_len then some (s, 0)
  else ReplaceAll.loop from_ to_ (s.length + 1) s (strstr s from_) 0

/-- The nine source sequences of the table in `NormalizeTextInPlace`. -/
def mappedSources : List CStr :=
  [[0xE2, 0x80, 0x99], [0xE2, 0x80, 0x98], [0xE2, 0x80, 0x9C], [0xE2, 0x80, 0x9D],
   [0xE2, 0x80, 0x94], [0xE2, 0x80, 0xA6], [0xE2, 0x9D, 0x93], [0xEF, 0xBC, 0x9F],
   [0xEF, 0xBC, 0x81]]

/-- The function `NormalizeTextInPlace(s)`: nine calls of `ReplaceAll`, results discarded. -/
def NormalizeTextInPlace (s : CStr) : Option CStr := do
  let r ← ReplaceAll s [0xE2, 0x80, 0x99] [0x27]
  let r ← ReplaceAll r.1 [0xE2, 0x80, 0x98] [0x27]
  let r ← ReplaceAll r.1 [0xE2, 0x80, 0x9C] [0x22]
  let r ← ReplaceAll r.1 [0xE2, 0x80, 0x9D] [0x22]
  let r ← ReplaceAll r.1 [0xE2, 0x80, 0x94] [0x2D]
  let r ← ReplaceAll r.1 [0xE2, 0x80, 0xA6] [0x2E]
  let r ← ReplaceAll r.1 [0xE2, 0x9D, 0x93] [0x3F]
  let r ← ReplaceAll r.1 [0xEF, 0xBC, 0x9F] [0x3F]
  let r ← ReplaceAll r.1 [0xEF, 0xBC, 0x81] [0x21]
  pure r.1

/-- Number of positions of `s` at which `pat` occurs. -/
def occurrences (pat : CStr) : CStr → Nat
  | [] => 0
  | h :: t => (if pat.isPrefixOf (h :: t) then 1 else 0) + occurrences pat t

/-! ## Floating point -/

/-- A `float` value as `strtod` can yield it: a finite value, an infinity or a NaN. -/
inductive CFloat where
  | finite (q : ℚ)
  | inf (negative : Bool)
  | nan
deriving DecidableEq

/-- Rounding to the nearest integer, ties to the even one. -/
def roundHalfEven (q : ℚ) : Int :=
  let f := ⌊q⌋
  if q - f < 1 / 2 then f
  else if 1 / 2 < q - f then f + 1
  else if f % 2 = 0 then f else f + 1

/-- The binary32 value nearest to `q`, ties to even: 24 significant bits, least
exponent -126 (subnormal values included). Values beyond the largest finite
binary32 value are not reached by the program. -/
def roundFloat32 (q : ℚ) : ℚ :=
  if q = 0 then 0
  else
    let e := max (Int.log 2 |q|) (-126)
    let ulp : ℚ := 2 ^ (e - 23)
    (if q < 0 then -1 else 1) * (roundHalfEven (|q| / ulp) : ℚ) * ulp

/-! ## The environment -/

/-- What the stdio calls of `ReadEntireFile` answer for one opened file. -/
structure FILE where
  /-- Whether `fseek(f, 0, SEEK_END)` returns 0. -/
  seek_end : Bool
  /-- The value of `ftell(f)`. -/
  size : Int
  /-- Whether `fseek(f, 0, SEEK_SET)` returns 0. -/
  seek_set : Bool
  /-- Whether `malloc(size + 1)` succeeds. -/
  malloc : Bool
  /-- The bytes `fread` stores; its return value is their number. -/
  data : List Nat

/-- The fields of `SherpaOnnxOfflineTtsConfig` that `main` sets (`config.model.kokoro.*`,
`config.model.num_threads`, `config.model.debug`); all others stay zero. -/
structure SherpaOnnxOfflineTtsConfig where
  model : CStr
  voices : CStr
  tokens : CStr
  data_dir : CStr
  dict_dir : CStr
  lexicon : CStr
  num_threads : Int
  debug : Int
deriving DecidableEq

/-- The fields of `SherpaOnnxGeneratedAudio` read by `main`. -/
structure SherpaOnnxGeneratedAudio where
  samples : List ℚ
  n : Int
  sample_rate : Int
deriving DecidableEq

/-- One chunk handed to the progress callback: the samples and the progress value. -/
structure Chunk where
  samples : List ℚ
  progress : ℚ
deriving DecidableEq

/-- The answers of everything outside the program. -/
structure Env where
  /-- Whether the program is compiled with `_WIN32` defined. -/
  win32 : Bool
  /-- Width of `long` in bits. -/
  long_bits : Nat
  /-- The libc `strtod`, followed by the conversion to `float`: the value and
  the number of bytes consumed (`end - s`). -/
  strtod : CStr → CFloat × Nat
  /-- The libc `fopen(path, "rb")`. -/
  fopen : CStr → Option FILE
  /-- Whether `SherpaOnnxCreateOfflineTts` returns a non-NULL handle. -/
  SherpaOnnxCreateOfflineTts : SherpaOnnxOfflineTtsConfig → Bool
  /-- The value of `SherpaOnnxOfflineTtsSampleRate`. -/
  SherpaOnnxOfflineTtsSampleRate : Int
  /-- The result code of `waveOutOpen` (0 is `MMSYSERR_NOERROR`). -/
  waveOutOpen : Nat
  /-- Whether `malloc` of the PCM buffer in the callback succeeds. -/
  pcm_malloc : Bool
  /-- Whether `waveOutPrepareHeader` succeeds. -/
  waveOutPrepareHeader : Bool
  /-- Whether `waveOutWrite` succeeds. -/
  waveOutWrite : Bool
  /-- The call `SherpaOnnxOfflineTtsGenerateWithProgressCallbackWithArg(tts, text, sid, speed, ..)`:
  the chunks it passes to the callback and its result (`none` for NULL). -/
  generate : CStr → Int → CFloat → List Chunk × Option SherpaOnnxGeneratedAudio
  /-- Whether `SherpaOnnxWriteWave(samples, n, sample_rate, filename)` reports success. -/
  SherpaOnnxWriteWave : List ℚ → Int → Int → CStr → Bool

/-- An argument of a `fprintf` call. -/
inductive Arg where
  | str (s : CStr)
  | int (n : Int)
  | real (q : ℚ)
deriving DecidableEq

/-- A completed external call. -/
inductive Event where
  /-- The call `fprintf(stderr, fmt, args...)`. -/
  | fprintf (fmt : String) (args : List Arg)
  | SherpaOnnxCreateOfflineTts (config : SherpaOnnxOfflineTtsConfig) (ok : Bool)
  | SherpaOnnxOfflineTtsSampleRate (rate : Int)
  | waveOutOpen (rate : Int) (mmr : Nat)
  | waveOutPrepareHeader (pcm : List Int) (ok : Bool)
  | waveOutWrite (pcm : List Int) (ok : Bool)
  | waveOutUnprepareHeader
  | generate (text : CStr) (sid : Int) (speed : CFloat) (ok : Bool)
  | SherpaOnnxWriteWave (samples : List ℚ) (n : Int) (sample_rate : Int) (filename : CStr)
      (ok : Bool)
  | waveOutReset
  | waveOutClose
  | SherpaOnnxDestroyOfflineTtsGeneratedAudio
  | SherpaOnnxDestroyOfflineTts
deriving DecidableEq

/-! ## Helpers of main (lines 27-82) -/

/-- The format string of `PrintUsage`. -/
def usageFormat : String :=
  "Usage: %s [--model-dir PATH] [--text-file PATH] [--output PATH] " ++
  "[--sid N] [--speed F] [--debug 0|1] [--no-playback] " ++
  "[--include-zh-lexicon]\n"

/-- The function `PrintUsage(prog)`. -/
def PrintUsage (prog : CStr) : List Event := [Event.fprintf usageFormat [Arg.str prog]]

/-- The libc `isspace` in the C locale. -/
def isspace (c : Nat) : Bool := c = 32 || (9 ≤ c && c ≤ 13)

/-- The libc `isdigit`. -/
def isdigit (c : Nat) : Bool := 48 ≤ c && c ≤ 57

/-- The value of a run of decimal digits. -/
def digitsValue (ds : List Nat) : Int := ds.foldl (fun acc d => acc * 10 + ((d : Int) - 48)) 0

/-- The libc `strtol(s, &end, 10)`: the value and the number of bytes consumed
(`end - s`, 0 when no conversion is made). Out-of-range values are clamped to
`LONG_MIN` / `LONG_MAX`. -/
def strtol (long_bits : Nat) (s : CStr) : Int × Nat :=
  let ws := s.takeWhile isspace
  let r1 := s.dropWhile isspace
  let neg := r1.head? = some 45
  let sign_len := if r1.head? = some 45 ∨ r1.head? = some 43 then 1 else 0
  let ds := (r1.drop sign_len).takeWhile isdigit
  if ds = [] then (0, 0)
  else
    let v := if neg then - digitsValue ds else digitsValue ds
    let long_min : Int := - 2 ^ (long_bits - 1)
    let long_max : Int := 2 ^ (long_bits - 1) - 1
    (max long_min (min long_max v), ws.length + sign_len + ds.length)

/-- The conversion `(int32_t)v`. -/
def toInt32 (v : Int) : Int := (v + 2 ^ 31) % 2 ^ 32 - 2 ^ 31

/-- The function `ParseInt(s, out)`: `some` of the value stored in `*out` when it
returns 1, `none` when it returns 0. -/
def ParseInt (env : Env) (s : CStr) : Option Int :=
  let r := strtol env.long_bits s
  if r.2 = 0 ∨ r.2 ≠ s.length then none else some (toInt32 r.1)

/-- The function `ParseFloat(s, out)`. -/
def ParseFloat (env : Env) (s : CStr) : Option CFloat :=
  let r := env.strtod s
  if r.2 = 0 ∨ r.2 ≠ s.length then none else some r.1

/-- The function `ReadEntireFile(path)`: the buffer of `size + 1` bytes, `none` for NULL. -/
def ReadEntireFile (env : Env) (path : CStr) : Option (List Nat) :=
  match env.fopen path with
  | none => none
  | some f =>
    if !f.seek_end then none
    else if f.size < 0 then none
    else if !f.seek_set then none
    else if !f.malloc then none
    else if f.size > 0 ∧ (f.data.length : Int) ≠ f.size then none
    else some ((if f.size > 0 then f.data else []) ++ [0])

/-! ## Playback (lines 112-195) -/

/-- The struct `PlaybackState`; `wave_ready` exists under `_WIN32` only. -/
structure PlaybackState where
  enabled : Int
  sample_rate : Int
  wave_ready : Int
deriving DecidableEq

/-- The function `InitPlayback(s)` (`_WIN32`): events, state afterwards, return value. -/
def InitPlayback (env : Env) (s : PlaybackState) : List Event × PlaybackState × Int :=
  let mmr := env.waveOutOpen
  if mmr ≠ 0 then
    ([Event.waveOutOpen s.sample_rate mmr,
      Event.fprintf "Failed to open default audio output (winmm error %u)\n" [Arg.int mmr]],
     s, 0)
  else ([Event.waveOutOpen s.sample_rate mmr], { s with wave_ready := 1 }, 1)

/-- The function `ClosePlayback(s)` (`_WIN32`). -/
def ClosePlayback (s : PlaybackState) : List Event × PlaybackState :=
  if s.wave_ready = 0 then ([], s)
  else ([Event.waveOutReset, Event.waveOutClose], { s with wave_ready := 0 })

/-- The body of the sample loop of `ProgressCallbackWithArg` (lines 165-168):
clamp to [-1, 1], multiply by `32767.0f` in `float` (binary32 arithmetic, as with
`FLT_EVAL_METHOD` 0), convert to `short` (the conversion of a floating value to an
integer type discards the fractional part). -/
def quantize (x : ℚ) : Int :=
  let x1 := if x > 1 then 1 else x
  let x2 := if x1 < -1 then -1 else x1
  let y := roundFloat32 (x2 * 32767)
  Int.tdiv y.num y.den

/-- The function `ProgressCallbackWithArg(samples, num_samples, progress, arg)`, with
`num_samples = samples.length`: events and return value. The wait for `WHDR_DONE`
is taken to end. -/
def ProgressCallbackWithArg (env : Env) (samples : List ℚ) (progress : ℚ)
    (arg : Option PlaybackState) : List Event × Int :=
  let play : List Event :=
    match arg with
    | none => []
    | some state =>
      if state.enabled ≠ 0 ∧ env.win32 = true then
        if samples.length > 0 ∧ state.sample_rate > 0 then
          if env.pcm_malloc then
            let pcm := samples.map quantize
            if env.waveOutPrepareHeader then
              if env.waveOutWrite then
                [Event.waveOutPrepareHeader pcm true, Event.waveOutWrite pcm true,
                 Event.waveOutUnprepareHeader]
              else [Event.waveOutPrepareHeader pcm true, Event.waveOutWrite pcm false]
            else [Event.waveOutPrepareHeader pcm false]
          else []
        else []
      else []
  (play ++ [Event.fprintf "Progress: %.3f%%\n" [Arg.real (roundFloat32 (progress * 100))]], 1)

/-! ## main (lines 197-330) -/

/-- The option variables of `main`. -/
structure Args where
  model_dir : CStr
  text_file : CStr
  output_wav : CStr
  sid : Int
  speed : CFloat
  debug : Int
  playback : Int
  include_zh_lexicon : Int
deriving DecidableEq

/-- The initial values (lines 198-205), with the default macro values of lines 15-25. -/
def Args.init : Args where
  model_dir := ascii "./kokoro-multi-lang-v1_1"
  text_file := ascii "./kokoro-multi-lang-v1_1/test_input.txt"
  output_wav := ascii "./generated-kokoro-zh-en.wav"
  sid := 0
  speed := CFloat.finite 1
  debug := 1
  playback := 1
  include_zh_lexicon := 0

/-- The result of one iteration of the argument loop: `return code`, or the
variables afterwards and whether the body advanced `i` (`argv[++i]`). -/
inductive Step where
  | exit (code : Int) (out : List Event)
  | next (st : Args) (advanced : Bool)
deriving DecidableEq

/-- The body of the argument loop (lines 209-241) for `a = argv[i]`, where `rest`
holds `argv[i+1 ..]`, so that `i + 1 < argc` is `rest ≠ []` and `argv[++i]` is
the head of `rest`. -/
def argStep (env : Env) (prog : CStr) (st : Args) (a : CStr) (rest : List CStr) : Step :=
  if a = ascii "--help" ∨ a = ascii "-h" then Step.exit 0 (PrintUsage prog)
  else if a = ascii "--model-dir" ∧ rest ≠ [] then
    Step.next { st with model_dir := rest.headD [] } true
  else if a = ascii "--text-file" ∧ rest ≠ [] then
    Step.next { st with text_file := rest.headD [] } true
  else if a = ascii "--output" ∧ rest ≠ [] then
    Step.next { st with output_wav := rest.headD [] } true
  else if a = ascii "--sid" ∧ rest ≠ [] then
    match ParseInt env (rest.headD []) with
    | none => Step.exit 1 [Event.fprintf "Invalid --sid value\n" []]
    | some v => Step.next { st with sid := v } true
  else if a = ascii "--speed" ∧ rest ≠ [] then
    match ParseFloat env (rest.headD []) with
    | none => Step.exit 1 [Event.fprintf "Invalid --speed value\n" []]
    | some v => Step.next { st with speed := v } true
  else if a = ascii "--debug" ∧ rest ≠ [] then
    match ParseInt env (rest.headD []) with
    | none => Step.exit 1 [Event.fprintf "Invalid --debug value\n" []]
    | some v => Step.next { st with debug := v } true
  else if a = ascii "--no-playback" then Step.next { st with playback := 0 } false
  else if a = ascii "--include-zh-lexicon" then
    Step.next { st with include_zh_lexicon := 1 } false
  else
    Step.exit 1
      (Event.fprintf "Unknown or incomplete argument: %s\n" [Arg.str a] :: PrintUsage prog)

/-- How the argument loop ends: a `return` inside it, or its normal end. -/
inductive Parsed where
  | exit (code : Int) (out : List Event)
  | done (st : Args)
deriving DecidableEq

/-- The argument loop (line 208) over the arguments `argv[i ..]` still to be read. -/
def argLoop (env : Env) (prog : CStr) : Args → List CStr → Parsed
  | st, [] => Parsed.done st
  | st, a :: rest =>
    match argStep env prog st a rest with
    | Step.exit code out => Parsed.exit code out
    | Step.next st1 advanced =>
      if advanced then
        match rest with
        | [] => Parsed.done st1
        | _ :: rest1 => argLoop env prog st1 rest1
      else argLoop env prog st1 rest

/-- The lexicon text of lines 263-269. -/
def lexicon_pair (model_dir : CStr) (include_zh_lexicon : Int) : CStr :=
  if include_zh_lexicon ≠ 0 then
    snprintf 8192
      (model_dir ++ ascii "/lexicon-us-en.txt," ++ model_dir ++ ascii "/lexicon-zh.txt")
  else snprintf 8192 (model_dir ++ ascii "/lexicon-us-en.txt")

/-- The configuration built in lines 258-280. -/
def mkConfig (st : Args) : SherpaOnnxOfflineTtsConfig where
  model := snprintf 4096 (st.model_dir ++ ascii "/model.onnx")
  voices := snprintf 4096 (st.model_dir ++ ascii "/voices.bin")
  tokens := snprintf 4096 (st.model_dir ++ ascii "/tokens.txt")
  data_dir := snprintf 4096 (st.model_dir ++ ascii "/espeak-ng-data")
  dict_dir := snprintf 4096 (st.model_dir ++ ascii "/dict")
  lexicon := lexicon_pair st.model_dir st.include_zh_lexicon
  num_threads := 2
  debug := st.debug

/-- The events of the callback calls made during one generation. -/
def callbackEvents (env : Env) (state : PlaybackState) (chunks : List Chunk) : List Event :=
  chunks.flatMap (fun c => (ProgressCallbackWithArg env c.samples c.progress (some state)).1)

/-- The closing `fprintf` calls (lines 321-327). -/
def summary (st : Args) (state : PlaybackState) : List Event :=
  [Event.fprintf "Input text file: %s\n" [Arg.str st.text_file],
   Event.fprintf "Model dir: %s\n" [Arg.str st.model_dir],
   Event.fprintf "Speaker ID is: %d\n" [Arg.int st.sid],
   Event.fprintf "Lexicon mode: %s\n"
     [Arg.str (if st.include_zh_lexicon ≠ 0 then ascii "us-en + zh" else ascii "us-en only")],
   Event.fprintf "Playback: %s\n"
     [Arg.str (if state.enabled ≠ 0 then ascii "enabled" else ascii "disabled")],
   Event.fprintf "Saved to: %s\n" [Arg.str st.output_wav]]

/-- Lines 289-297: the sample rate is queried and, under `_WIN32`, playback is
opened when enabled; the events and the playback state afterwards. -/
def startPlayback (env : Env) (playback : Int) : List Event × PlaybackState :=
  let rate := env.SherpaOnnxOfflineTtsSampleRate
  let state0 : PlaybackState := { enabled := playback, sample_rate := rate, wave_ready := 0 }
  if env.win32 = true ∧ state0.enabled ≠ 0 then
    let r := InitPlayback env state0
    (Event.SherpaOnnxOfflineTtsSampleRate rate :: r.1, { r.2.1 with enabled := r.2.2 })
  else ([Event.SherpaOnnxOfflineTtsSampleRate rate], state0)

/-- The call `ClosePlayback(&playback_state)` of lines 304-306 and 314-316, made
under `_WIN32` only. -/
def stopPlayback (env : Env) (state : PlaybackState) : List Event :=
  if env.win32 = true then (ClosePlayback state).1 else []

/-- Lines 250-329 of `main`, after the argument loop ended normally. -/
def synthesize (env : Env) (st : Args) : Option (Int × List Event) :=
  match ReadEntireFile env st.text_file with
  | none => some (1, [Event.fprintf "Failed to read text file: %s\n" [Arg.str st.text_file]])
  | some buf => do
    let text ← NormalizeTextInPlace (cstring buf)
    let config := mkConfig st
    if env.SherpaOnnxCreateOfflineTts config = false then
      some (1, [Event.SherpaOnnxCreateOfflineTts config false,
                Event.fprintf "Failed to create Offline TTS.\n" []])
    else
      let start := startPlayback env st.playback
      let state := start.2
      let g := env.generate text st.sid st.speed
      let before := Event.SherpaOnnxCreateOfflineTts config true :: start.1
        ++ callbackEvents env state g.1
      match g.2 with
      | none =>
        some (1, before
                   ++ [Event.generate text st.sid st.speed false,
                       Event.fprintf "TTS generation failed.\n" []]
                   ++ stopPlayback env state ++ [Event.SherpaOnnxDestroyOfflineTts])
      | some audio =>
        some (0, before
                   ++ [Event.generate text st.sid st.speed true,
                       Event.SherpaOnnxWriteWave audio.samples audio.n audio.sample_rate
                         st.output_wav
                         (env.SherpaOnnxWriteWave audio.samples audio.n audio.sample_rate
                           st.output_wav)]
                   ++ stopPlayback env state
                   ++ [Event.SherpaOnnxDestroyOfflineTtsGeneratedAudio,
                       Event.SherpaOnnxDestroyOfflineTts]
                   ++ summary st state)

/-- The function `main(argc, argv)` with `argc = argv.length`: the exit code and the
completed external calls; `none` when a loop of the model runs out of fuel. -/
def main (env : Env) (argv : List CStr) : Option (Int × List Event) :=
  match argLoop env (argv.headD []) Args.init (argv.drop 1) with
  | Parsed.exit code out => some (code, out)
  | Parsed.done st => synthesize env st

/-! ## Predicates on traces -/

/-- The call is one in which the synthesizer reports failure: a NULL result of
`SherpaOnnxCreateOfflineTts` or of the generation call. -/
def Event.isSynthFailure : Event → Bool
  | Event.SherpaOnnxCreateOfflineTts _ false => true
  | Event.generate _ _ _ false => true
  | _ => false

/-- The call is a call of `SherpaOnnxWriteWave`. -/
def Event.isWriteWave : Event → Bool
  | Event.SherpaOnnxWriteWave _ _ _ _ _ => true
  | _ => false

/-- The call is output to stderr, the query of the sample rate or a winmm call. -/
def Event.isAux : Event → Bool
  | Event.fprintf _ _ => true
  | Event.SherpaOnnxOfflineTtsSampleRate _ => true
  | Event.waveOutOpen _ _ => true
  | Event.waveOutPrepareHeader _ _ => true
  | Event.waveOutWrite _ _ => true
  | Event.waveOutUnprepareHeader => true
  | Event.waveOutReset => true
  | Event.waveOutClose => true
  | _ => false

/-- Second definition for C9, from the amended wording: the sample clamped to
[-1, 1], the `float` product with 32767, truncated toward zero. -/
def truncatedSample (x : ℚ) : Int :=
  if 0 ≤ max (-1) (min 1 x) then ⌊roundFloat32 (max (-1) (min 1 x) * 32767)⌋
  else ⌈roundFloat32 (max (-1) (min 1 x) * 32767)⌉

/-- Whether the argument loop, started with the variables `st` on the arguments
`argv[i ..]`, reaches an iteration in which `argv[i]` is `flag`. -/
def argMeets (env : Env) (prog : CStr) (flag : CStr) : Args → List CStr → Bool
  | _, [] => false
  | st, a :: rest =>
    if a = flag then true
    else
      match argStep env prog st a rest with
      | Step.exit _ _ => false
      | Step.next st1 advanced =>
        if advanced then
          match rest with
          | [] => false
          | _ :: rest1 => argMeets env prog flag st1 rest1
        else argMeets env prog flag st1 rest

/-! ## Concrete environments -/

/-- An environment for evaluation: a non-Windows build with a 64-bit `long`, in
which every path opens a readable file holding `content`, creation of the
synthesizer answers `create_ok`, generation passes one chunk of two samples to the
callback and answers `audio`, and `SherpaOnnxWriteWave` answers `write_ok`. The
runs evaluated in it pass no `--speed`, so `strtod` is never called; its answer
is set to `no conversion`. -/
def sampleEnv (content : List Nat) (create_ok : Bool) (audio : Option SherpaOnnxGeneratedAudio)
    (write_ok : Bool) : Env where
  win32 := false
  long_bits := 64
  strtod := fun _ => (CFloat.finite 0, 0)
  fopen := fun _ =>
    some { seek_end := true, size := content.length, seek_set := true, malloc := true,
           data := content }
  SherpaOnnxCreateOfflineTts := fun _ => create_ok
  SherpaOnnxOfflineTtsSampleRate := 24000
  waveOutOpen := 0
  pcm_malloc := true
  waveOutPrepareHeader := true
  waveOutWrite := true
  generate := fun _ _ _ => ([{ samples := [0, 1], progress := 1 }], audio)
  SherpaOnnxWriteWave := fun _ _ _ _ => write_ok

/-- A generated audio of two samples at 24 kHz. -/
def sampleAudio : SherpaOnnxGeneratedAudio := { samples := [0, 1], n := 2, sample_rate := 24000 }

/-- The text of the end-to-end example: `Hello `, a left double quotation mark,
`world`, a right double quotation mark, an ellipsis. -/
def helloText : CStr :=
  ascii "Hello " ++ [0xE2, 0x80, 0x9C] ++ ascii "world" ++ [0xE2, 0x80, 0x9D] ++ [0xE2, 0x80, 0xA6]

/-- The ASCII text `Hello "world".`. -/
def helloAscii : CStr := ascii "Hello " ++ [0x22] ++ ascii "world" ++ [0x22, 0x2E]

/-! ## ReplaceAll and NormalizeTextInPlace: proofs -/

/-- A match found by `strstr` lies inside the searched text. -/
theorem strstr_bound : ∀ (hay needle : CStr) (k : Nat),
    strstr hay needle = some k → k + needle.length ≤ hay.length
  | [], needle, k, h => by
    simp only [strstr] at h
    split at h
    · rename_i hn
      cases h
      simp [hn]
    · cases h
  | a :: t, needle, k, h => by
    simp only [strstr] at h
    split at h
    · rename_i hp
      have hle := List.IsPrefix.length_le (List.isPrefixOf_iff_prefix.mp hp)
      cases h
      simpa using hle
    · cases hk : strstr t needle with
      | none => simp [hk] at h
      | some j =>
        have hj := strstr_bound t needle j hk
        simp [hk] at h
        subst h
        simp only [List.length_cons]
        omega

/-- Overwriting bytes inside a text keeps its length. -/
theorem memcpy_length (s : CStr) (p : Nat) (src : CStr) (n : Nat)
    (hp : p + n ≤ s.length) (hn : n ≤ src.length) : (memcpy s p src n).length = s.length := by
  simp only [memcpy, List.length_append, List.length_take, List.length_drop]
  omega

/-- With fuel above the number of bytes after the current match, the loop of
`ReplaceAll` ends and keeps the length of the text. -/
theorem ReplaceAll.loop_returns (from_ to_ : CStr) (hlen : from_.length = to_.length)
    (hpos : 0 < to_.length) :
    ∀ (fuel : Nat) (s : CStr) (p : Option Nat) (changed : Int), 0 < fuel →
      (∀ k, p = some k → k + from_.length ≤ s.length ∧ s.length - k < fuel) →
      ∃ s1 c, ReplaceAll.loop from_ to_ fuel s p changed = some (s1, c) ∧ s1.length = s.length
  | 0, _, _, _, h0, _ => absurd h0 (Nat.lt_irrefl 0)
  | fuel + 1, s, none, changed, _, _ => ⟨s, changed, rfl, rfl⟩
  | fuel + 1, s, some p, changed, _, hp => by
    obtain ⟨hb, hf⟩ := hp p rfl
    have hm : (memcpy s p to_ to_.length).length = s.length :=
      memcpy_length s p to_ to_.length (by omega) (Nat.le_refl _)
    have hrec := ReplaceAll.loop_returns from_ to_ hlen hpos fuel (memcpy s p to_ to_.length)
      ((strstr ((memcpy s p to_ to_.length).drop (p + to_.length)) from_).map
        (fun k => p + to_.length + k)) 1 (by omega)
      (by
        intro k hk
        cases hs : strstr ((memcpy s p to_ to_.length).drop (p + to_.length)) from_ with
        | none => simp [hs] at hk
        | some j =>
          have hj := strstr_bound _ _ _ hs
          simp [hs] at hk
          subst hk
          simp only [List.length_drop] at hj
          omega)
    obtain ⟨s1, c, h1, h2⟩ := hrec
    exact ⟨s1, c, by simpa [ReplaceAll.loop] using h1, h2.trans hm⟩

/-- C10: for all `s`, `from` and `to`, `ReplaceAll` returns and leaves a text of
the same byte length as `s`; when `from` is empty or the lengths of `from` and
`to` differ, it leaves `s` unchanged and returns 0. -/
theorem ReplaceAll_length_and_guard (s from_ to_ : CStr) :
    (∃ s1 c, ReplaceAll s from_ to_ = some (s1, c) ∧ s1.length = s.length) ∧
    (from_ = [] ∨ from_.length ≠ to_.length → ReplaceAll s from_ to_ = some (s, 0)) := by
  constructor
  · by_cases hg : from_.length = 0 ∨ from_.length ≠ to_.length
    · exact ⟨s, 0, by simp only [ReplaceAll]; rw [if_pos hg], rfl⟩
    · have hlen : from_.length = to_.length := by
        by_contra h
        exact hg (Or.inr h)
      have hpos : 0 < to_.length := by
        have : from_.length ≠ 0 := fun h => hg (Or.inl h)
        omega
      obtain ⟨s1, c, h1, h2⟩ := ReplaceAll.loop_returns from_ to_ hlen hpos (s.length + 1) s
        (strstr s from_) 0 (by omega)
        (by
          intro k hk
          have := strstr_bound _ _ _ hk
          omega)
      exact ⟨s1, c, by simp only [ReplaceAll]; rw [if_neg hg]; exact h1, h2⟩
  · intro h
    have hg : from_.length = 0 ∨ from_.length ≠ to_.length := by
      rcases h with h | h
      · exact Or.inl (by simp [h])
      · exact Or.inr h
    simp only [ReplaceAll]
    rw [if_pos hg]

/-- Every entry of the table of `NormalizeTextInPlace` has a three-byte source and
a one-byte replacement, so each call of `ReplaceAll` returns at its length guard
and the text stays as it is. -/
theorem NormalizeTextInPlace_eq (s : CStr) : NormalizeTextInPlace s = some s := by
  simp [NormalizeTextInPlace, ReplaceAll]

/-! ## The argument loop and the synthesis run: proofs -/

/-- One unfolding of the argument loop. -/
theorem argLoop_cons (env : Env) (prog : CStr) (st : Args) (a : CStr) (rest : List CStr) :
    argLoop env prog st (a :: rest) =
      match argStep env prog st a rest with
      | Step.exit code out => Parsed.exit code out
      | Step.next st1 advanced =>
        argLoop env prog st1 (if advanced then rest.drop 1 else rest) := by
  rw [argLoop]
  cases argStep env prog st a rest with
  | exit code out => rfl
  | next st1 advanced =>
    cases advanced with
    | false => simp
    | true => cases rest <;> simp [argLoop]

/-- The body advances `i` only when a next argument exists. -/
theorem argStep_advanced (env : Env) (prog : CStr) (st st1 : Args) (a : CStr) (rest : List CStr)
    (h : argStep env prog st a rest = Step.next st1 true) : rest ≠ [] := by
  intro hr
  subst hr
  unfold argStep at h
  simp only [ne_eq, not_true_eq_false, and_false, if_false] at h
  split_ifs at h <;> simp at h

/-- A `return` inside the argument loop is preceded by output to stderr only. -/
theorem argStep_exit_out (env : Env) (prog : CStr) (st : Args) (a : CStr) (rest : List CStr)
    (code : Int) (out : List Event) (h : argStep env prog st a rest = Step.exit code out) :
    ∀ e ∈ out, ∃ fmt args, e = Event.fprintf fmt args := by
  unfold argStep at h
  split_ifs at h
  all_goals first
    | (simp only [Step.exit.injEq] at h
       obtain ⟨_, rfl⟩ := h
       intro e he
       simp [PrintUsage] at he
       rcases he with rfl | rfl <;> exact ⟨_, _, rfl⟩)
    | (split at h
       · simp only [Step.exit.injEq] at h
         obtain ⟨_, rfl⟩ := h
         intro e he
         simp at he
         subst he
         exact ⟨_, _, rfl⟩
       · simp at h)

/-- A run that returns from inside the argument loop has written to stderr only. -/
theorem argLoop_exit_out (env : Env) (prog : CStr) :
    ∀ (n : Nat) (args : List CStr), args.length ≤ n → ∀ (st : Args) (code : Int)
      (out : List Event), argLoop env prog st args = Parsed.exit code out →
      ∀ e ∈ out, ∃ fmt args, e = Event.fprintf fmt args
  | _, [], _, st, code, out, h => by simp [argLoop] at h
  | 0, a :: rest, hn, _, _, _, _ => by simp at hn
  | n + 1, a :: rest, hn, st, code, out, h => by
    rw [argLoop_cons] at h
    cases hs : argStep env prog st a rest with
    | exit c o =>
      rw [hs] at h
      simp only [Parsed.exit.injEq] at h
      obtain ⟨rfl, rfl⟩ := h
      exact argStep_exit_out env prog st a rest _ _ hs
    | next st1 advanced =>
      rw [hs] at h
      refine argLoop_exit_out env prog n _ ?_ st1 code out h
      simp only [List.length_cons] at hn
      split
      · rw [List.length_drop]; omega
      · omega


/-- An auxiliary call is no failure report of the synthesizer and no write of the
wave file. -/
theorem Event.isAux_not (e : Event) (h : e.isAux = true) :
    e.isSynthFailure = false ∧ e.isWriteWave = false := by
  cases e <;> simp_all [Event.isAux, Event.isSynthFailure, Event.isWriteWave]

/-- The callback makes auxiliary calls only. -/
theorem ProgressCallbackWithArg_aux (env : Env) (samples : List ℚ) (progress : ℚ)
    (arg : Option PlaybackState) :
    ∀ e ∈ (ProgressCallbackWithArg env samples progress arg).1,
      e.isAux = true := by
  intro e he
  unfold ProgressCallbackWithArg at he
  simp only [List.mem_append, List.mem_singleton] at he
  rcases he with he | rfl
  · cases arg with
    | none => simp at he
    | some state =>
      simp only at he
      split_ifs at he <;> simp at he
      all_goals (rcases he with rfl | rfl | rfl) <;> rfl
  · rfl

/-- The callback calls of one generation are auxiliary calls. -/
theorem callbackEvents_aux (env : Env) (state : PlaybackState) (chunks : List Chunk) :
    ∀ e ∈ callbackEvents env state chunks,
      e.isAux = true := by
  intro e he
  simp only [callbackEvents, List.mem_flatMap] at he
  obtain ⟨c, _, hc⟩ := he
  exact ProgressCallbackWithArg_aux env _ _ _ e hc

/-- The function `InitPlayback` makes auxiliary calls only. -/
theorem InitPlayback_aux (env : Env) (s : PlaybackState) :
    ∀ e ∈ (InitPlayback env s).1, e.isAux = true := by
  intro e he
  simp only [InitPlayback] at he
  split_ifs at he <;> simp at he
  · rcases he with rfl | rfl <;> rfl
  · subst he; rfl

/-- The function `ClosePlayback` makes auxiliary calls only. -/
theorem ClosePlayback_aux (s : PlaybackState) :
    ∀ e ∈ (ClosePlayback s).1, e.isAux = true := by
  intro e he
  simp only [ClosePlayback] at he
  split_ifs at he <;> simp at he
  rcases he with rfl | rfl <;> rfl

/-- The closing `fprintf` calls are auxiliary calls. -/
theorem summary_aux (st : Args) (state : PlaybackState) :
    ∀ e ∈ summary st state, e.isAux = true := by
  intro e he
  simp only [summary, List.mem_cons, List.mem_singleton, List.not_mem_nil, or_false] at he
  rcases he with rfl | rfl | rfl | rfl | rfl | rfl <;> rfl

/-- Lines 289-297 make auxiliary calls only. -/
theorem startPlayback_aux (env : Env) (playback : Int) :
    ∀ e ∈ (startPlayback env playback).1,
      e.isAux = true := by
  intro e he
  simp only [startPlayback] at he
  split_ifs at he
  · simp only [List.mem_cons] at he
    rcases he with rfl | he
    · rfl
    · exact InitPlayback_aux env _ e he
  · simp only [List.mem_singleton] at he
    subst he
    rfl

/-- Closing playback makes auxiliary calls only. -/
theorem stopPlayback_aux (env : Env) (state : PlaybackState) :
    ∀ e ∈ stopPlayback env state, e.isAux = true := by
  intro e he
  simp only [stopPlayback] at he
  split_ifs at he
  · exact ClosePlayback_aux state e he
  · simp at he

/-- After the argument loop, a failure reported by the synthesizer gives exit
code 1 and no call of `SherpaOnnxWriteWave`. -/
theorem synthesize_failure (env : Env) (st : Args) (code : Int) (trace : List Event)
    (h : synthesize env st = some (code, trace))
    (hf : ∃ e ∈ trace, e.isSynthFailure = true) :
    code = 1 ∧ ∀ e ∈ trace, e.isWriteWave = false := by
  unfold synthesize at h
  split at h
  · simp only [Option.some.injEq, Prod.mk.injEq] at h
    obtain ⟨rfl, rfl⟩ := h
    simp [Event.isWriteWave]
  · simp only [NormalizeTextInPlace_eq, Option.bind_eq_bind, Option.some_bind] at h
    split_ifs at h with hc
    · simp only [Option.some.injEq, Prod.mk.injEq] at h
      obtain ⟨rfl, rfl⟩ := h
      simp [Event.isWriteWave]
    · split at h
      · simp only [Option.some.injEq, Prod.mk.injEq] at h
        obtain ⟨rfl, rfl⟩ := h
        refine ⟨rfl, ?_⟩
        intro e he
        simp only [List.mem_append, List.mem_cons, List.mem_singleton, List.not_mem_nil,
          or_false] at he
        rcases he with ((((rfl | he) | he) | rfl | rfl) | he) | rfl
        · rfl
        · exact (Event.isAux_not e (startPlayback_aux env _ e he)).2
        · exact (Event.isAux_not e (callbackEvents_aux env _ _ e he)).2
        · rfl
        · rfl
        · exact (Event.isAux_not e (stopPlayback_aux env _ e he)).2
        · rfl
      · simp only [Option.some.injEq, Prod.mk.injEq] at h
        obtain ⟨rfl, rfl⟩ := h
        exfalso
        obtain ⟨e, he, hfe⟩ := hf
        simp only [List.mem_append, List.mem_cons, List.mem_singleton, List.not_mem_nil,
          or_false] at he
        have hno : e.isSynthFailure = false := by
          rcases he with (((((rfl | he) | he) | rfl | rfl) | he) | rfl | rfl) | he
          · rfl
          · exact (Event.isAux_not e (startPlayback_aux env _ e he)).1
          · exact (Event.isAux_not e (callbackEvents_aux env _ _ e he)).1
          · rfl
          · rfl
          · exact (Event.isAux_not e (stopPlayback_aux env _ e he)).1
          · rfl
          · rfl
          · exact (Event.isAux_not e (summary_aux _ _ e he)).1
        rw [hno] at hfe
        cases hfe

/-- The model of lines 250-329 always returns. -/
theorem synthesize_returns (env : Env) (st : Args) : ∃ r, synthesize env st = some r := by
  unfold synthesize
  split
  · exact ⟨_, rfl⟩
  · simp only [NormalizeTextInPlace_eq, Option.bind_eq_bind, Option.some_bind]
    split_ifs
    · exact ⟨_, rfl⟩
    · split <;> exact ⟨_, rfl⟩

/-- The model of `main` always returns: no fuel runs out. -/
theorem main_returns (env : Env) (argv : List CStr) : ∃ r, main env argv = some r := by
  unfold main
  split
  · exact ⟨_, rfl⟩
  · exact synthesize_returns env _

/-- C3: in every run in which the synthesizer reports failure, that is, in which
`SherpaOnnxCreateOfflineTts` or the generation call returns NULL, `main` returns
exit code 1 and makes no call of `SherpaOnnxWriteWave`. -/
theorem main_synthesizer_failure (env : Env) (argv : List CStr)
    (hfail : ∃ r, main env argv = some r ∧ ∃ e ∈ r.2, e.isSynthFailure = true) :
    ∃ trace, main env argv = some (1, trace) ∧ ∀ e ∈ trace, e.isWriteWave = false := by
  obtain ⟨⟨code, trace⟩, hr, hf⟩ := hfail
  have key : code = 1 ∧ ∀ e ∈ trace, e.isWriteWave = false := by
    unfold main at hr
    split at hr
    · rename_i c out hl
      simp only [Option.some.injEq, Prod.mk.injEq] at hr
      obtain ⟨rfl, rfl⟩ := hr
      exfalso
      obtain ⟨e, he, hfe⟩ := hf
      obtain ⟨fmt, args, rfl⟩ := argLoop_exit_out env _ _ _ (Nat.le_refl _) _ _ _ hl e he
      cases hfe
    · exact synthesize_failure env _ code trace hr hf
  obtain ⟨rfl, hw⟩ := key
  exact ⟨trace, hr, hw⟩


/-- Witness for C3: a run in which `SherpaOnnxCreateOfflineTts` returns NULL. -/
theorem main_synthesizer_failure_witness :
    (∃ r, main (sampleEnv helloText false none true) [ascii "prog"] = some r ∧
        ∃ e ∈ r.2, e.isSynthFailure = true) ∧
    ∃ trace, main (sampleEnv helloText false none true) [ascii "prog"] = some (1, trace) ∧
      ∀ e ∈ trace, e.isWriteWave = false :=
  have h : ∃ r, main (sampleEnv helloText false none true) [ascii "prog"] = some r ∧
      ∃ e ∈ r.2, e.isSynthFailure = true :=
    ⟨(1, [Event.SherpaOnnxCreateOfflineTts (mkConfig Args.init) false,
          Event.fprintf "Failed to create Offline TTS.\n" []]), by decide,
      Event.SherpaOnnxCreateOfflineTts (mkConfig Args.init) false, by simp, rfl⟩
  ⟨h, main_synthesizer_failure _ _ h⟩

/-- The loop body reads its remaining arguments through emptiness and head only. -/
theorem argStep_append (env : Env) (prog : CStr) (st st1 : Args) (a : CStr)
    (rest more : List CStr) (adv : Bool)
    (h : argStep env prog st a rest = Step.next st1 adv) :
    argStep env prog st a (rest ++ more) = Step.next st1 adv := by
  cases rest with
  | nil =>
    unfold argStep at h ⊢
    simp only [ne_eq, not_true_eq_false, and_false, if_false] at h
    split_ifs at h with h1 h2 h3
    · subst h2
      simp only [Step.next.injEq] at h
      obtain ⟨rfl, rfl⟩ := h
      simp +decide
    · subst h3
      simp only [Step.next.injEq] at h
      obtain ⟨rfl, rfl⟩ := h
      simp +decide
  | cons v r =>
    unfold argStep at h ⊢
    simpa using h

/-- A prefix of arguments that the loop reads to its end is read in the same way
when further arguments follow. -/
theorem argLoop_append (env : Env) (prog : CStr) :
    ∀ (n : Nat) (pre : List CStr), pre.length ≤ n → ∀ (st st1 : Args) (more : List CStr),
      argLoop env prog st pre = Parsed.done st1 →
      argLoop env prog st (pre ++ more) = argLoop env prog st1 more
  | _, [], _, st, st1, more, h => by
    simp only [argLoop, Parsed.done.injEq] at h
    subst h
    rfl
  | 0, a :: rest, hn, _, _, _, _ => by simp at hn
  | n + 1, a :: rest, hn, st, st1, more, h => by
    rw [argLoop_cons] at h
    rw [List.cons_append, argLoop_cons]
    cases hs : argStep env prog st a rest with
    | exit c o =>
      rw [hs] at h
      cases h
    | next st2 adv =>
      rw [hs] at h
      rw [argStep_append env prog st st2 a rest more adv hs]
      simp only at h ⊢
      simp only [List.length_cons] at hn
      cases adv with
      | false =>
        simp only [Bool.false_eq_true, if_false] at h ⊢
        exact argLoop_append env prog n rest (by omega) st2 st1 more h
      | true =>
        simp only [if_true] at h ⊢
        have hne := argStep_advanced env prog st st2 a rest hs
        have hd : (rest ++ more).drop 1 = rest.drop 1 ++ more := by
          cases rest with
          | nil => exact absurd rfl hne
          | cons v r => rfl
        rw [hd]
        exact argLoop_append env prog n (rest.drop 1) (by rw [List.length_drop]; omega)
          st2 st1 more h

/-- Only `--sid` changes `sid`, only `--speed` changes `speed`. -/
theorem argStep_keeps (env : Env) (prog : CStr) (st st1 : Args) (a : CStr) (rest : List CStr)
    (adv : Bool) (h : argStep env prog st a rest = Step.next st1 adv) :
    (a ≠ ascii "--sid" → st1.sid = st.sid) ∧ (a ≠ ascii "--speed" → st1.speed = st.speed) := by
  unfold argStep at h
  split_ifs at h with h1 h2 h3 h4 h5 h6 h7 h8 h9
  all_goals first
    | (simp only [Step.next.injEq] at h
       obtain ⟨rfl, _⟩ := h
       exact ⟨fun _ => rfl, fun _ => rfl⟩)
    | (split at h
       · cases h
       · simp only [Step.next.injEq] at h
         obtain ⟨rfl, _⟩ := h
         first
           | exact ⟨fun hne => absurd h5.1 hne, fun _ => rfl⟩
           | exact ⟨fun _ => rfl, fun hne => absurd h6.1 hne⟩
           | exact ⟨fun _ => rfl, fun _ => rfl⟩)

/-- One unfolding of `argMeets`. -/
theorem argMeets_cons (env : Env) (prog flag : CStr) (st : Args) (a : CStr)
    (rest : List CStr) :
    argMeets env prog flag st (a :: rest) =
      if a = flag then true
      else
        match argStep env prog st a rest with
        | Step.exit _ _ => false
        | Step.next st1 advanced =>
          argMeets env prog flag st1 (if advanced then rest.drop 1 else rest) := by
  rw [argMeets]
  split_ifs
  · rfl
  · cases argStep env prog st a rest with
    | exit code out => rfl
    | next st1 advanced =>
      cases advanced with
      | false => simp
      | true => cases rest <;> simp [argMeets]

/-- A flag that is not among the arguments is not met. -/
theorem argMeets_of_not_mem (env : Env) (prog flag : CStr) :
    ∀ (n : Nat) (args : List CStr), args.length ≤ n → ∀ (st : Args), flag ∉ args →
      argMeets env prog flag st args = false
  | _, [], _, _, _ => by simp [argMeets]
  | 0, a :: rest, hn, _, _ => by simp at hn
  | n + 1, a :: rest, hn, st, hno => by
    rw [argMeets_cons]
    have ha : a ≠ flag := fun h => hno (by rw [h]; exact List.mem_cons_self _ _)
    rw [if_neg ha]
    cases hs : argStep env prog st a rest with
    | exit c o => rfl
    | next st2 adv =>
      simp only
      simp only [List.length_cons] at hn
      refine argMeets_of_not_mem env prog flag n _ ?_ st2 ?_
      · split
        · rw [List.length_drop]; omega
        · omega
      · intro hm
        apply hno
        apply List.mem_cons_of_mem
        split at hm
        · exact List.mem_of_mem_drop hm
        · exact hm

/-- When the loop ends normally without meeting `--sid`, it leaves `sid` as it
was; likewise for `--speed` and `speed`. -/
theorem argLoop_keeps (env : Env) (prog : CStr) :
    ∀ (n : Nat) (args : List CStr), args.length ≤ n → ∀ (st st1 : Args),
      argLoop env prog st args = Parsed.done st1 →
      (argMeets env prog (ascii "--sid") st args = false → st1.sid = st.sid) ∧
      (argMeets env prog (ascii "--speed") st args = false → st1.speed = st.speed)
  | _, [], _, st, st1, h => by
    simp only [argLoop, Parsed.done.injEq] at h
    subst h
    exact ⟨fun _ => rfl, fun _ => rfl⟩
  | 0, a :: rest, hn, _, _, _ => by simp at hn
  | n + 1, a :: rest, hn, st, st1, h => by
    rw [argLoop_cons] at h
    cases hs : argStep env prog st a rest with
    | exit c o =>
      rw [hs] at h
      cases h
    | next st2 adv =>
      rw [hs] at h
      simp only at h
      simp only [List.length_cons] at hn
      have hk := argStep_keeps env prog st st2 a rest adv hs
      have hlen : (if adv = true then rest.drop 1 else rest).length ≤ n := by
        split
        · rw [List.length_drop]; omega
        · omega
      have ih := argLoop_keeps env prog n _ hlen st2 st1 h
      constructor
      · intro hm
        rw [argMeets_cons, hs] at hm
        by_cases ha : a = ascii "--sid"
        · rw [if_pos ha] at hm
          cases hm
        · rw [if_neg ha] at hm
          rw [ih.1 hm]
          exact hk.1 ha
      · intro hm
        rw [argMeets_cons, hs] at hm
        by_cases ha : a = ascii "--speed"
        · rw [if_pos ha] at hm
          cases hm
        · rw [if_neg ha] at hm
          rw [ih.2 hm]
          exact hk.2 ha

/-- The generation call receives the `sid` and `speed` left by the argument loop. -/
theorem synthesize_generate (env : Env) (st : Args) (code : Int) (trace : List Event)
    (h : synthesize env st = some (code, trace)) (text : CStr) (sid : Int) (speed : CFloat)
    (ok : Bool) (hg : Event.generate text sid speed ok ∈ trace) :
    sid = st.sid ∧ speed = st.speed := by
  have aux : ∀ l : List Event, (∀ e ∈ l, e.isAux = true) →
      Event.generate text sid speed ok ∉ l := fun l hl hm => by
    have := hl _ hm
    simp [Event.isAux] at this
  unfold synthesize at h
  split at h
  · simp only [Option.some.injEq, Prod.mk.injEq] at h
    obtain ⟨rfl, rfl⟩ := h
    simp at hg
  · simp only [NormalizeTextInPlace_eq, Option.bind_eq_bind, Option.some_bind] at h
    split_ifs at h with hc
    · simp only [Option.some.injEq, Prod.mk.injEq] at h
      obtain ⟨rfl, rfl⟩ := h
      simp at hg
    · split at h
      · simp only [Option.some.injEq, Prod.mk.injEq] at h
        obtain ⟨rfl, rfl⟩ := h
        simp only [List.mem_append, List.mem_cons, List.mem_singleton, List.not_mem_nil,
          or_false] at hg
        rcases hg with ((((hg | hg) | hg) | hg | hg) | hg) | hg
        · cases hg
        · exact absurd hg (aux _ (startPlayback_aux env _))
        · exact absurd hg (aux _ (callbackEvents_aux env _ _))
        · simp only [Event.generate.injEq] at hg
          exact ⟨hg.2.1, hg.2.2.1⟩
        · cases hg
        · exact absurd hg (aux _ (stopPlayback_aux env _))
        · cases hg
      · simp only [Option.some.injEq, Prod.mk.injEq] at h
        obtain ⟨rfl, rfl⟩ := h
        simp only [List.mem_append, List.mem_cons, List.mem_singleton, List.not_mem_nil,
          or_false] at hg
        rcases hg with (((((hg | hg) | hg) | hg | hg) | hg) | hg | hg) | hg
        · cases hg
        · exact absurd hg (aux _ (startPlayback_aux env _))
        · exact absurd hg (aux _ (callbackEvents_aux env _ _))
        · simp only [Event.generate.injEq] at hg
          exact ⟨hg.2.1, hg.2.2.1⟩
        · cases hg
        · exact absurd hg (aux _ (stopPlayback_aux env _))
        · cases hg
        · cases hg
        · exact absurd hg (aux _ (summary_aux _ _))

/-- The loop stores the value of an accepted `--sid` argument. -/
theorem argLoop_sid (env : Env) (prog : CStr) (st : Args) (v : CStr) (n : Int)
    (post : List CStr) (hv : ParseInt env v = some n) :
    argLoop env prog st (ascii "--sid" :: v :: post) =
      argLoop env prog { st with sid := n } post := by
  rw [argLoop_cons]
  simp +decide [argStep, hv]

/-- The loop stores the value of an accepted `--speed` argument. -/
theorem argLoop_speed (env : Env) (prog : CStr) (st : Args) (v : CStr) (q : CFloat)
    (post : List CStr) (hv : ParseFloat env v = some q) :
    argLoop env prog st (ascii "--speed" :: v :: post) =
      argLoop env prog { st with speed := q } post := by
  rw [argLoop_cons]
  simp +decide [argStep, hv]

/-- The loop body reads of the arguments after `argv[i]` the first one only. -/
theorem argStep_head (env : Env) (prog : CStr) (st : Args) (a v : CStr) (l1 l2 : List CStr) :
    argStep env prog st a (v :: l1) = argStep env prog st a (v :: l2) := by
  unfold argStep
  simp

/-- An iteration that does not advance `i` does not read the arguments after `argv[i]`. -/
theorem argStep_not_advanced (env : Env) (prog : CStr) (st st1 : Args) (a : CStr)
    (rest l : List CStr) (h : argStep env prog st a rest = Step.next st1 false) :
    argStep env prog st a l = Step.next st1 false := by
  unfold argStep at h
  split_ifs at h with h1 h2 h3 h4 h5 h6 h7 h8 h9
  all_goals first
    | (subst h8
       simp only [Step.next.injEq] at h
       obtain ⟨rfl, _⟩ := h
       unfold argStep
       simp +decide)
    | (subst h9
       simp only [Step.next.injEq] at h
       obtain ⟨rfl, _⟩ := h
       unfold argStep
       simp +decide)
    | (split at h
       · cases h
       · simp only [Step.next.injEq, Bool.true_eq_false, and_false] at h)
    | (simp only [Step.next.injEq, Bool.true_eq_false, and_false] at h)

/-- When the loop ends normally and meets `--sid`, the arguments split at the last
`--sid` flag it meets, which is followed by a value that `ParseInt` accepts. -/
theorem argLoop_last_sid (env : Env) (prog : CStr) :
    ∀ (n : Nat) (args : List CStr), args.length ≤ n → ∀ (st st1 : Args),
      argLoop env prog st args = Parsed.done st1 →
      argMeets env prog (ascii "--sid") st args = true →
      ∃ pre v post st0 k, args = pre ++ ascii "--sid" :: v :: post ∧
        argLoop env prog st pre = Parsed.done st0 ∧ ParseInt env v = some k ∧
        argMeets env prog (ascii "--sid") { st0 with sid := k } post = false
  | _, [], _, _, _, _, hm => by simp [argMeets] at hm
  | 0, a :: rest, hn, _, _, _, _ => by simp at hn
  | n + 1, a :: rest, hn, st, st1, h, hm => by
    simp only [List.length_cons] at hn
    by_cases ha : a = ascii "--sid"
    · subst ha
      cases rest with
      | nil =>
        rw [argLoop_cons] at h
        simp +decide [argStep] at h
      | cons v post =>
        cases hv : ParseInt env v with
        | none =>
          rw [argLoop_cons] at h
          simp +decide [argStep, hv] at h
        | some k =>
          rw [argLoop_sid env prog st v k post hv] at h
          simp only [List.length_cons] at hn
          by_cases hp : argMeets env prog (ascii "--sid") { st with sid := k } post = true
          · obtain ⟨pre1, v1, post1, st0, k1, h1, h2, h3, h4⟩ :=
              argLoop_last_sid env prog n post (by omega) _ st1 h hp
            refine ⟨ascii "--sid" :: v :: pre1, v1, post1, st0, k1, ?_, ?_, h3, h4⟩
            · rw [h1]
              rfl
            · rw [argLoop_sid env prog st v k pre1 hv]
              exact h2
          · exact ⟨[], v, post, st, k, rfl, rfl, hv, by simpa using hp⟩
    · rw [argMeets_cons, if_neg ha] at hm
      rw [argLoop_cons] at h
      cases hs : argStep env prog st a rest with
      | exit c o =>
        rw [hs] at h
        cases h
      | next st2 adv =>
        rw [hs] at h hm
        simp only at h hm
        cases adv with
        | false =>
          simp only [Bool.false_eq_true, if_false] at h hm
          obtain ⟨pre1, v1, post1, st0, k1, h1, h2, h3, h4⟩ :=
            argLoop_last_sid env prog n rest (by omega) st2 st1 h hm
          refine ⟨a :: pre1, v1, post1, st0, k1, ?_, ?_, h3, h4⟩
          · rw [h1]
            rfl
          · rw [argLoop_cons, argStep_not_advanced env prog st st2 a rest pre1 hs]
            exact h2
        | true =>
          simp only [if_true] at h hm
          cases rest with
          | nil => exact absurd rfl (argStep_advanced env prog st st2 a [] hs)
          | cons w rest1 =>
            simp only [List.drop_succ_cons, List.drop_zero] at h hm
            simp only [List.length_cons] at hn
            obtain ⟨pre1, v1, post1, st0, k1, h1, h2, h3, h4⟩ :=
              argLoop_last_sid env prog n rest1 (by omega) st2 st1 h hm
            refine ⟨a :: w :: pre1, v1, post1, st0, k1, ?_, ?_, h3, h4⟩
            · rw [h1]
              rfl
            · rw [argLoop_cons, argStep_head env prog st a w pre1 rest1, hs]
              exact h2

/-- When the loop ends normally and meets `--speed`, the arguments split at the last
`--speed` flag it meets, which is followed by a value that `ParseFloat` accepts. -/
theorem argLoop_last_speed (env : Env) (prog : CStr) :
    ∀ (n : Nat) (args : List CStr), args.length ≤ n → ∀ (st st1 : Args),
      argLoop env prog st args = Parsed.done st1 →
      argMeets env prog (ascii "--speed") st args = true →
      ∃ pre v post st0 k, args = pre ++ ascii "--speed" :: v :: post ∧
        argLoop env prog st pre = Parsed.done st0 ∧ ParseFloat env v = some k ∧
        argMeets env prog (ascii "--speed") { st0 with speed := k } post = false
  | _, [], _, _, _, _, hm => by simp [argMeets] at hm
  | 0, a :: rest, hn, _, _, _, _ => by simp at hn
  | n + 1, a :: rest, hn, st, st1, h, hm => by
    simp only [List.length_cons] at hn
    by_cases ha : a = ascii "--speed"
    · subst ha
      cases rest with
      | nil =>
        rw [argLoop_cons] at h
        simp +decide [argStep] at h
      | cons v post =>
        cases hv : ParseFloat env v with
        | none =>
          rw [argLoop_cons] at h
          simp +decide [argStep, hv] at h
        | some k =>
          rw [argLoop_speed env prog st v k post hv] at h
          simp only [List.length_cons] at hn
          by_cases hp : argMeets env prog (ascii "--speed") { st with speed := k } post = true
          · obtain ⟨pre1, v1, post1, st0, k1, h1, h2, h3, h4⟩ :=
              argLoop_last_speed env prog n post (by omega) _ st1 h hp
            refine ⟨ascii "--speed" :: v :: pre1, v1, post1, st0, k1, ?_, ?_, h3, h4⟩
            · rw [h1]
              rfl
            · rw [argLoop_speed env prog st v k pre1 hv]
              exact h2
          · exact ⟨[], v, post, st, k, rfl, rfl, hv, by simpa using hp⟩
    · rw [argMeets_cons, if_neg ha] at hm
      rw [argLoop_cons] at h
      cases hs : argStep env prog st a rest with
      | exit c o =>
        rw [hs] at h
        cases h
      | next st2 adv =>
        rw [hs] at h hm
        simp only at h hm
        cases adv with
        | false =>
          simp only [Bool.false_eq_true, if_false] at h hm
          obtain ⟨pre1, v1, post1, st0, k1, h1, h2, h3, h4⟩ :=
            argLoop_last_speed env prog n rest (by omega) st2 st1 h hm
          refine ⟨a :: pre1, v1, post1, st0, k1, ?_, ?_, h3, h4⟩
          · rw [h1]
            rfl
          · rw [argLoop_cons, argStep_not_advanced env prog st st2 a rest pre1 hs]
            exact h2
        | true =>
          simp only [if_true] at h hm
          cases rest with
          | nil => exact absurd rfl (argStep_advanced env prog st st2 a [] hs)
          | cons w rest1 =>
            simp only [List.drop_succ_cons, List.drop_zero] at h hm
            simp only [List.length_cons] at hn
            obtain ⟨pre1, v1, post1, st0, k1, h1, h2, h3, h4⟩ :=
              argLoop_last_speed env prog n rest1 (by omega) st2 st1 h hm
            refine ⟨a :: w :: pre1, v1, post1, st0, k1, ?_, ?_, h3, h4⟩
            · rw [h1]
              rfl
            · rw [argLoop_cons, argStep_head env prog st a w pre1 rest1, hs]
              exact h2

/-- C6 (amended): for every argument list that the argument loop accepts, the
generation call receives exactly the `sid` and `speed` the loop leaves. These are
0 and 1.0 when the loop meets no `--sid`, respectively no `--speed`, flag;
otherwise the arguments split at the last `--sid` / `--speed` flag the loop
meets, and they are the value `ParseInt` / `ParseFloat` gives for the argument
after it. A flag that is not among the arguments is not met. No range check is
made: any value that `ParseInt` / `ParseFloat` accepts is stored. -/
theorem main_request_values (env : Env) (prog : CStr) (args : List CStr) (st : Args)
    (hacc : argLoop env prog Args.init args = Parsed.done st) :
    (∃ code trace, main env (prog :: args) = some (code, trace) ∧
      ∀ text sid speed ok, Event.generate text sid speed ok ∈ trace →
        sid = st.sid ∧ speed = st.speed) ∧
    (argMeets env prog (ascii "--sid") Args.init args = false → st.sid = 0) ∧
    (argMeets env prog (ascii "--speed") Args.init args = false →
      st.speed = CFloat.finite 1) ∧
    (∀ pre v post st0 n, args = pre ++ ascii "--sid" :: v :: post →
      argLoop env prog Args.init pre = Parsed.done st0 → ParseInt env v = some n →
      argMeets env prog (ascii "--sid") { st0 with sid := n } post = false → st.sid = n) ∧
    (∀ pre v post st0 q, args = pre ++ ascii "--speed" :: v :: post →
      argLoop env prog Args.init pre = Parsed.done st0 → ParseFloat env v = some q →
      argMeets env prog (ascii "--speed") { st0 with speed := q } post = false →
      st.speed = q) ∧
    (argMeets env prog (ascii "--sid") Args.init args = true →
      ∃ pre v post st0 n, args = pre ++ ascii "--sid" :: v :: post ∧
        argLoop env prog Args.init pre = Parsed.done st0 ∧ ParseInt env v = some n ∧
        argMeets env prog (ascii "--sid") { st0 with sid := n } post = false) ∧
    (argMeets env prog (ascii "--speed") Args.init args = true →
      ∃ pre v post st0 q, args = pre ++ ascii "--speed" :: v :: post ∧
        argLoop env prog Args.init pre = Parsed.done st0 ∧ ParseFloat env v = some q ∧
        argMeets env prog (ascii "--speed") { st0 with speed := q } post = false) ∧
    (∀ flag st0 l, flag ∉ l → argMeets env prog flag st0 l = false) ∧
    (∀ v n, ParseInt env v = some n →
      argLoop env prog Args.init (args ++ [ascii "--sid", v]) =
        Parsed.done { st with sid := n }) ∧
    (∀ v q, ParseFloat env v = some q →
      argLoop env prog Args.init (args ++ [ascii "--speed", v]) =
        Parsed.done { st with speed := q }) := by
  have hk := argLoop_keeps env prog args.length args (Nat.le_refl _) Args.init st hacc
  refine ⟨?_, hk.1, hk.2, ?_, ?_,
    argLoop_last_sid env prog args.length args (Nat.le_refl _) Args.init st hacc,
    argLoop_last_speed env prog args.length args (Nat.le_refl _) Args.init st hacc,
    ?_, ?_, ?_⟩
  · have hm : main env (prog :: args) = synthesize env st := by
      unfold main
      simp only [List.headD_cons, List.drop_succ_cons, List.drop_zero]
      rw [hacc]
    obtain ⟨⟨code, trace⟩, hr⟩ := synthesize_returns env st
    exact ⟨code, trace, hm.trans hr, fun text sid speed ok hg =>
      synthesize_generate env st code trace hr text sid speed ok hg⟩
  · intro pre v post st0 n hargs hpre hv hpost
    subst hargs
    rw [argLoop_append env prog pre.length pre (Nat.le_refl _) Args.init st0 _ hpre,
      argLoop_sid env prog st0 v n post hv] at hacc
    exact (argLoop_keeps env prog post.length post (Nat.le_refl _) _ st hacc).1 hpost
  · intro pre v post st0 q hargs hpre hv hpost
    subst hargs
    rw [argLoop_append env prog pre.length pre (Nat.le_refl _) Args.init st0 _ hpre,
      argLoop_speed env prog st0 v q post hv] at hacc
    exact (argLoop_keeps env prog post.length post (Nat.le_refl _) _ st hacc).2 hpost
  · intro flag st0 l hl
    exact argMeets_of_not_mem env prog flag l.length l (Nat.le_refl _) st0 hl
  · intro v n hv
    rw [argLoop_append env prog args.length args (Nat.le_refl _) Args.init st _ hacc,
      argLoop_sid env prog st v n [] hv]
    rfl
  · intro v q hv
    rw [argLoop_append env prog args.length args (Nat.le_refl _) Args.init st _ hacc,
      argLoop_speed env prog st v q [] hv]
    rfl

/-- Witness for C6: `prog --sid 5 --no-playback`. -/
theorem main_request_values_witness :
    argLoop (sampleEnv helloText true (some sampleAudio) true) (ascii "prog") Args.init
        [ascii "--sid", ascii "5", ascii "--no-playback"] =
      Parsed.done { Args.init with sid := 5, playback := 0 } ∧
    (∃ code trace, main (sampleEnv helloText true (some sampleAudio) true)
        (ascii "prog" :: [ascii "--sid", ascii "5", ascii "--no-playback"]) =
          some (code, trace) ∧
      ∀ text sid speed ok, Event.generate text sid speed ok ∈ trace →
        sid = 5 ∧ speed = CFloat.finite 1) ∧
    ParseInt (sampleEnv helloText true (some sampleAudio) true) (ascii "5") = some 5 ∧
    argMeets (sampleEnv helloText true (some sampleAudio) true) (ascii "prog") (ascii "--sid")
      { Args.init with sid := 5 } [ascii "--no-playback"] = false ∧
    ({ Args.init with sid := 5, playback := 0 } : Args).sid = 5 :=
  ⟨by decide,
    (main_request_values (sampleEnv helloText true (some sampleAudio) true) (ascii "prog")
      [ascii "--sid", ascii "5", ascii "--no-playback"]
      { Args.init with sid := 5, playback := 0 } (by decide)).1,
    by decide, by decide,
    (main_request_values (sampleEnv helloText true (some sampleAudio) true) (ascii "prog")
      [ascii "--sid", ascii "5", ascii "--no-playback"]
      { Args.init with sid := 5, playback := 0 } (by decide)).2.2.2.1
      [] (ascii "5") [ascii "--no-playback"] Args.init 5 rfl (by decide) (by decide)
      (by decide)⟩

/-- Counterexample for C6: `prog --sid -1` is accepted by the argument loop, the
generation call receives the speaker id -1, and the exit code is 0. -/
theorem main_negative_sid_accepted :
    argLoop (sampleEnv helloText true (some sampleAudio) true) (ascii "prog") Args.init
        [ascii "--sid", ascii "-1"] = Parsed.done { Args.init with sid := -1 } ∧
    ∃ trace, main (sampleEnv helloText true (some sampleAudio) true)
        [ascii "prog", ascii "--sid", ascii "-1"] = some (0, trace) ∧
      Event.generate helloText (-1) (CFloat.finite 1) true ∈ trace :=
  ⟨by decide, _, rfl, by decide⟩

/-- Truncating division of numerator by denominator is the floor of a
non-negative rational. -/
theorem truncate_of_nonneg (q : ℚ) (h : 0 ≤ q) : Int.tdiv q.num q.den = ⌊q⌋ := by
  rw [Rat.floor_def, Int.tdiv_eq_ediv (Rat.num_nonneg.mpr h) (Int.ofNat_nonneg _)]

/-- Truncating division of numerator by denominator is the ceiling of a
non-positive rational. -/
theorem truncate_of_nonpos (q : ℚ) (h : q ≤ 0) : Int.tdiv q.num q.den = ⌈q⌉ := by
  have h1 : ⌈q⌉ = -⌊-q⌋ := by rw [Int.floor_neg, neg_neg]
  have h2 : 0 ≤ (-q).num := Rat.num_nonneg.mpr (by linarith)
  rw [h1, Rat.floor_def, Rat.neg_num, Rat.neg_den, ← Int.tdiv_eq_ediv (by simpa using h2)
    (Int.ofNat_nonneg _), Int.neg_tdiv, neg_neg]

/-- The two `if` statements of the sample loop clamp to [-1, 1]. -/
theorem clamp_eq (x : ℚ) :
    (if (if x > 1 then 1 else x) < -1 then (-1 : ℚ) else (if x > 1 then 1 else x))
      = max (-1) (min 1 x) := by
  split_ifs with h1 h2 h2
  · linarith
  · rw [min_eq_left (le_of_lt h1), max_eq_right (by norm_num)]
  · rw [min_eq_right (le_of_not_lt h1), max_eq_left (le_of_lt h2)]
  · rw [min_eq_right (le_of_not_lt h1), max_eq_right (le_of_not_lt h2)]

/-- Rounding a non-negative value to an integer gives a non-negative integer. -/
theorem roundHalfEven_nonneg (q : ℚ) (h : 0 ≤ q) : 0 ≤ roundHalfEven q := by
  have hf : 0 ≤ ⌊q⌋ := Int.floor_nonneg.mpr h
  unfold roundHalfEven
  simp only
  split_ifs <;> omega

/-- Rounding to an integer does not pass an integer bound. -/
theorem roundHalfEven_le (q : ℚ) (m : Int) (h : q ≤ m) : roundHalfEven q ≤ m := by
  have hf : ⌊q⌋ ≤ m := by
    have := Int.floor_le q
    exact_mod_cast this.trans h
  have hstep : ¬ (q - ⌊q⌋ < 1 / 2) → ⌊q⌋ + 1 ≤ m := by
    intro hd
    by_contra hlt
    have hm : ⌊q⌋ = m := by omega
    rw [hm] at hd
    exact hd (by linarith)
  unfold roundHalfEven
  simp only
  split_ifs with h1 h2 h3
  · exact hf
  · exact hstep h1
  · exact hf
  · exact hstep h1

/-- A value below one half above an integer rounds to that integer. -/
theorem roundHalfEven_down (q : ℚ) (f : Int) (h0 : (f : ℚ) ≤ q) (h1 : q - f < 1 / 2) :
    roundHalfEven q = f := by
  have hf : ⌊q⌋ = f := by
    rw [Int.floor_eq_iff]
    exact ⟨h0, by linarith⟩
  unfold roundHalfEven
  simp only [hf]
  rw [if_pos h1]

/-- A value more than one half above an integer and below the next rounds to the next. -/
theorem roundHalfEven_up (q : ℚ) (f : Int) (h0 : q < (f : ℚ) + 1) (h1 : 1 / 2 < q - f) :
    roundHalfEven q = f + 1 := by
  have hf : ⌊q⌋ = f := by
    rw [Int.floor_eq_iff]
    exact ⟨by linarith, h0⟩
  unfold roundHalfEven
  simp only [hf]
  rw [if_neg (by linarith), if_pos h1]

/-- The rounding of a positive value whose binary exponent is `k`. -/
theorem roundFloat32_of_exponent (q : ℚ) (k : Int) (hk : -126 ≤ k) (hlo : (2 : ℚ) ^ k ≤ q)
    (hhi : q < (2 : ℚ) ^ (k + 1)) :
    roundFloat32 q = (roundHalfEven (q / 2 ^ (k - 23)) : ℚ) * 2 ^ (k - 23) := by
  have hpos : 0 < q := lt_of_lt_of_le (by positivity) hlo
  have hlog : Int.log 2 q = k := by
    apply le_antisymm
    · have := (Int.lt_zpow_iff_log_lt (by norm_num : 1 < 2) hpos).mp (by exact_mod_cast hhi)
      omega
    · exact (Int.zpow_le_iff_le_log (by norm_num : 1 < 2) hpos).mp (by exact_mod_cast hlo)
  unfold roundFloat32
  rw [if_neg (ne_of_gt hpos), abs_of_pos hpos, hlog, max_eq_left hk,
    if_neg (not_lt.mpr hpos.le)]
  simp

/-- Rounding to `float` keeps the sign. -/
theorem roundFloat32_sign (q : ℚ) :
    (0 ≤ q → 0 ≤ roundFloat32 q) ∧ (q ≤ 0 → roundFloat32 q ≤ 0) := by
  by_cases h0 : q = 0
  · subst h0
    simp [roundFloat32]
  · have hr : 0 ≤ (roundHalfEven (|q| / 2 ^ (max (Int.log 2 |q|) (-126) - 23)) : ℚ) := by
      exact_mod_cast roundHalfEven_nonneg _ (by positivity)
    have hu : (0 : ℚ) < 2 ^ (max (Int.log 2 |q|) (-126) - 23) := by positivity
    unfold roundFloat32
    rw [if_neg h0]
    simp only
    constructor
    · intro hq
      rw [if_neg (not_lt.mpr hq)]
      positivity
    · intro hq
      have hlt : q < 0 := lt_of_le_of_ne hq h0
      rw [if_pos hlt]
      nlinarith [mul_nonneg hr hu.le]

/-- Rounding to `float` does not carry a magnitude of at most 32767 beyond 32767. -/
theorem roundFloat32_bound (q : ℚ) (h : |q| ≤ 32767) : |roundFloat32 q| ≤ 32767 := by
  by_cases h0 : q = 0
  · subst h0
    simp [roundFloat32]
  · have hpos : 0 < |q| := abs_pos.mpr h0
    have he : max (Int.log 2 |q|) (-126) ≤ 14 := by
      apply max_le
      · have hlt : |q| < ((2 : ℕ) : ℚ) ^ (15 : Int) := by
          norm_num
          linarith
        have := (Int.lt_zpow_iff_log_lt (by norm_num : 1 < 2) hpos).mp hlt
        omega
      · norm_num
    obtain ⟨j, hj⟩ : ∃ j : ℕ, (23 : Int) - max (Int.log 2 |q|) (-126) = j :=
      ⟨(23 - max (Int.log 2 |q|) (-126)).toNat, by omega⟩
    have hu : (2 : ℚ) ^ (max (Int.log 2 |q|) (-126) - 23) = ((2 : ℚ) ^ j)⁻¹ := by
      have : max (Int.log 2 |q|) (-126) - 23 = -(j : Int) := by omega
      rw [this, zpow_neg, zpow_natCast]
    have hr0 : 0 ≤ roundHalfEven (|q| / 2 ^ (max (Int.log 2 |q|) (-126) - 23)) :=
      roundHalfEven_nonneg _ (by positivity)
    have hr1 : roundHalfEven (|q| / 2 ^ (max (Int.log 2 |q|) (-126) - 23)) ≤
        (32767 * 2 ^ j : Int) := by
      apply roundHalfEven_le
      rw [hu]
      push_cast
      rw [div_inv_eq_mul]
      exact mul_le_mul_of_nonneg_right h (by positivity)
    have hval : |roundFloat32 q| =
        (roundHalfEven (|q| / 2 ^ (max (Int.log 2 |q|) (-126) - 23)) : ℚ) *
          2 ^ (max (Int.log 2 |q|) (-126) - 23) := by
      unfold roundFloat32
      rw [if_neg h0]
      simp only
      have hup : (0 : ℚ) < 2 ^ (max (Int.log 2 |q|) (-126) - 23) := by positivity
      have hrc : (0 : ℚ) ≤ (roundHalfEven (|q| / 2 ^ (max (Int.log 2 |q|) (-126) - 23)) : ℚ) := by
        exact_mod_cast hr0
      have hs : |(if q < 0 then (-1 : ℚ) else 1)| = 1 := by split_ifs <;> simp
      rw [abs_mul, abs_mul, abs_of_pos hup, abs_of_nonneg hrc, hs, one_mul]
    rw [hval, hu]
    have hr1' : (roundHalfEven (|q| / 2 ^ (max (Int.log 2 |q|) (-126) - 23)) : ℚ) ≤
        32767 * 2 ^ j := by exact_mod_cast hr1
    rw [hu] at hr1'
    have h2 : (0 : ℚ) < 2 ^ j := by positivity
    rw [← div_eq_mul_inv, div_le_iff₀ h2]
    exact hr1'

/-- The sample loop gives the `float` product of the clamped sample with 32767,
truncated toward zero. -/
theorem quantize_eq_truncatedSample (x : ℚ) : quantize x = truncatedSample x := by
  have hq : quantize x =
      Int.tdiv (roundFloat32 (max (-1) (min 1 x) * 32767)).num
        (roundFloat32 (max (-1) (min 1 x) * 32767)).den := by
    simp only [quantize]
    rw [clamp_eq]
  rw [hq, truncatedSample]
  split_ifs with h0
  · exact truncate_of_nonneg _ ((roundFloat32_sign _).1 (by positivity))
  · exact truncate_of_nonpos _ ((roundFloat32_sign _).2 (by nlinarith [not_le.mp h0]))

/-- The truncated sample fits a `short`. -/
theorem truncatedSample_bounds (x : ℚ) :
    -32767 ≤ truncatedSample x ∧ truncatedSample x ≤ 32767 := by
  have hlo : (-1 : ℚ) ≤ max (-1) (min 1 x) := le_max_left _ _
  have hhi : max (-1) (min 1 x) ≤ (1 : ℚ) := max_le (by norm_num) (min_le_left _ _)
  have hb := roundFloat32_bound (max (-1) (min 1 x) * 32767)
    (by rw [abs_le]; constructor <;> linarith)
  rw [abs_le] at hb
  unfold truncatedSample
  constructor
  · split_ifs with h0
    · exact le_trans (by norm_num)
        (Int.floor_nonneg.mpr ((roundFloat32_sign _).1 (by positivity)))
    · rw [Int.le_ceil_iff]
      push_cast
      linarith [hb.1]
  · split_ifs with h0
    · have h1 := Int.floor_le (roundFloat32 (max (-1) (min 1 x) * 32767))
      have h2 : ((⌊roundFloat32 (max (-1) (min 1 x) * 32767)⌋ : Int) : ℚ)
          ≤ ((32767 : Int) : ℚ) := by
        push_cast
        linarith [hb.2]
      exact_mod_cast h2
    · rw [Int.ceil_le]
      push_cast
      linarith [hb.2]

/-- The PCM buffer handed to winmm holds the quantized samples. -/
theorem ProgressCallbackWithArg_pcm (env : Env) (samples : List ℚ) (progress : ℚ)
    (arg : Option PlaybackState) (pcm : List Int) (ok : Bool)
    (h : Event.waveOutWrite pcm ok ∈ (ProgressCallbackWithArg env samples progress arg).1) :
    pcm = samples.map quantize := by
  unfold ProgressCallbackWithArg at h
  simp only [List.mem_append, List.mem_singleton] at h
  rcases h with h | h
  · cases arg with
    | none => simp at h
    | some state =>
      simp only at h
      split_ifs at h <;> simp at h
      all_goals exact h.1
  · cases h

/-- The product 3/8 * 32767 = 12287.625 is a binary32 value. -/
theorem roundFloat32_three_eighths : roundFloat32 (3 / 8 * 32767) = 98301 / 8 := by
  rw [roundFloat32_of_exponent _ 13 (by norm_num) (by norm_num) (by norm_num),
    roundHalfEven_down _ 12582528 (by norm_num) (by norm_num)]
  norm_num

/-- The product 32769/65536 * 32767 lies within half a unit in the last place
below 16384 and rounds to it. -/
theorem roundFloat32_near_half : roundFloat32 (32769 / 65536 * 32767) = 16384 := by
  rw [roundFloat32_of_exponent _ 13 (by norm_num) (by norm_num) (by norm_num),
    roundHalfEven_up _ 16777215 (by norm_num) (by norm_num)]
  norm_num

/-- C9 (amended): for every sample `x`, the 16-bit PCM value the playback path of
`ProgressCallbackWithArg` produces is the `float` product of `c` and 32767 (the
exact product rounded to the nearest binary32 value) truncated toward zero, where
`c` is `x` clamped to [-1, 1]; it lies in [-32767, 32767], and the buffer written
to the device holds these values in the order of the samples. The rounding of
the product counts: the sample 32769/65536 gives 16384. -/
theorem quantize_truncates (x : ℚ) :
    quantize x = truncatedSample x ∧ -32767 ≤ quantize x ∧ quantize x ≤ 32767 ∧
    (∀ (env : Env) (samples : List ℚ) (progress : ℚ) (arg : Option PlaybackState)
      (pcm : List Int) (ok : Bool),
      Event.waveOutWrite pcm ok ∈ (ProgressCallbackWithArg env samples progress arg).1 →
      pcm = samples.map truncatedSample) ∧
    quantize (32769 / 65536) = 16384 := by
  have hc2 : max (-1) (min 1 (32769 / 65536 : ℚ)) = 32769 / 65536 := by
    rw [min_eq_right (by norm_num), max_eq_right (by norm_num)]
  refine ⟨quantize_eq_truncatedSample x, ?_, ?_, ?_, ?_⟩
  · rw [quantize_eq_truncatedSample]; exact (truncatedSample_bounds x).1
  · rw [quantize_eq_truncatedSample]; exact (truncatedSample_bounds x).2
  · intro env samples progress arg pcm ok h
    rw [ProgressCallbackWithArg_pcm env samples progress arg pcm ok h]
    exact List.map_congr_left (fun y _ => quantize_eq_truncatedSample y)
  · rw [quantize_eq_truncatedSample, truncatedSample, hc2, if_pos (by norm_num),
      roundFloat32_near_half, Int.floor_eq_iff]
    norm_num

/-- Counterexample for C9: for the sample 3/8 the code produces 12287, while
3/8 * 32767 = 12287.625 rounds to 12288. -/
theorem quantize_three_eighths :
    quantize (3 / 8) = 12287 ∧ round (max (-1) (min 1 (3 / 8 : ℚ)) * 32767) = 12288 := by
  have hc : max (-1) (min 1 (3 / 8 : ℚ)) = 3 / 8 := by
    rw [min_eq_right (by norm_num), max_eq_right (by norm_num)]
  constructor
  · rw [quantize_eq_truncatedSample, truncatedSample, hc, if_pos (by norm_num),
      roundFloat32_three_eighths, Int.floor_eq_iff]
    norm_num
  · rw [hc, round_eq, Int.floor_eq_iff]
    norm_num

/-- A formatted text shorter than the buffer is stored whole. -/
theorem snprintf_fits (size : Nat) (l : CStr) (h : l.length < size) : snprintf size l = l := by
  unfold snprintf
  exact List.take_of_length_le (by omega)

/-- The first part of the two-path format ends in the comma. -/
theorem ascii_lexicon_us_en_comma :
    ascii "/lexicon-us-en.txt," = ascii "/lexicon-us-en.txt" ++ [44] := by decide

/-- C7: for a model directory without a comma whose formatted lexicon text fits
the 8192-byte buffer, the lexicon configuration is the directory followed by
`/lexicon-us-en.txt` (one comma-separated path) when `include_zh_lexicon` is 0,
and that path, a comma, and the directory followed by `/lexicon-zh.txt` (two
comma-separated paths, the us-en one first) otherwise. -/
theorem mkConfig_lexicon (st : Args) (hcomma : 44 ∉ st.model_dir)
    (hfit : (if st.include_zh_lexicon = 0 then st.model_dir ++ ascii "/lexicon-us-en.txt"
             else st.model_dir ++ ascii "/lexicon-us-en.txt," ++ st.model_dir
                    ++ ascii "/lexicon-zh.txt").length < 8192) :
    (st.include_zh_lexicon = 0 →
      (mkConfig st).lexicon = st.model_dir ++ ascii "/lexicon-us-en.txt" ∧
      (mkConfig st).lexicon.splitOn 44 = [st.model_dir ++ ascii "/lexicon-us-en.txt"]) ∧
    (st.include_zh_lexicon ≠ 0 →
      (mkConfig st).lexicon =
        st.model_dir ++ ascii "/lexicon-us-en.txt," ++ st.model_dir ++ ascii "/lexicon-zh.txt" ∧
      (mkConfig st).lexicon.splitOn 44 =
        [st.model_dir ++ ascii "/lexicon-us-en.txt", st.model_dir ++ ascii "/lexicon-zh.txt"]) := by
  have h1 : (44 : Nat) ∉ st.model_dir ++ ascii "/lexicon-us-en.txt" := by
    rw [List.mem_append]
    rintro (h | h)
    · exact hcomma h
    · revert h; decide
  have h2 : (44 : Nat) ∉ st.model_dir ++ ascii "/lexicon-zh.txt" := by
    rw [List.mem_append]
    rintro (h | h)
    · exact hcomma h
    · revert h; decide
  constructor
  · intro hz
    rw [if_pos hz] at hfit
    have hl : (mkConfig st).lexicon = st.model_dir ++ ascii "/lexicon-us-en.txt" := by
      simp only [mkConfig, lexicon_pair, hz, ne_eq, not_true_eq_false, if_false]
      exact snprintf_fits _ _ hfit
    refine ⟨hl, ?_⟩
    rw [hl]
    have := List.splitOn_intercalate [st.model_dir ++ ascii "/lexicon-us-en.txt"] 44
      (by simpa using h1) (by simp)
    simpa [List.intercalate] using this
  · intro hz
    rw [if_neg hz] at hfit
    have hl : (mkConfig st).lexicon =
        st.model_dir ++ ascii "/lexicon-us-en.txt," ++ st.model_dir ++ ascii "/lexicon-zh.txt" := by
      simp only [mkConfig, lexicon_pair, hz, ne_eq, not_false_eq_true, if_true]
      exact snprintf_fits _ _ hfit
    refine ⟨hl, ?_⟩
    rw [hl, ascii_lexicon_us_en_comma]
    have := List.splitOn_intercalate
      [st.model_dir ++ ascii "/lexicon-us-en.txt", st.model_dir ++ ascii "/lexicon-zh.txt"] 44
      (by
        intro l hlm
        simp only [List.mem_cons, List.mem_singleton, List.not_mem_nil, or_false] at hlm
        rcases hlm with rfl | rfl
        · exact h1
        · exact h2) (by simp)
    simpa [List.intercalate, List.append_assoc] using this

/-- Witness for C7: the default model directory with `--include-zh-lexicon`. -/
theorem mkConfig_lexicon_witness :
    (mkConfig { Args.init with include_zh_lexicon := 1 }).lexicon.splitOn 44 =
      [ascii "./kokoro-multi-lang-v1_1/lexicon-us-en.txt",
       ascii "./kokoro-multi-lang-v1_1/lexicon-zh.txt"] :=
  ((mkConfig_lexicon { Args.init with include_zh_lexicon := 1 } (by decide) (by decide)).2
    (by decide)).2

/-- Witness for C10: a call that the length guard ends, and a call that replaces. -/
theorem ReplaceAll_length_and_guard_witness :
    ReplaceAll [0xE2, 0x80, 0x99] [0xE2, 0x80, 0x99] [0x27] = some ([0xE2, 0x80, 0x99], 0) ∧
    ∃ s1 c, ReplaceAll (ascii "aaaaa") (ascii "aa") (ascii "ba") = some (s1, c) ∧
      s1.length = (ascii "aaaaa").length :=
  ⟨(ReplaceAll_length_and_guard [0xE2, 0x80, 0x99] [0xE2, 0x80, 0x99] [0x27]).2
      (Or.inr (by decide)),
   (ReplaceAll_length_and_guard (ascii "aaaaa") (ascii "aa") (ascii "ba")).1⟩

/-- The lengths of the five path suffixes. -/
theorem suffix_lengths :
    (ascii "/model.onnx").length = 11 ∧ (ascii "/voices.bin").length = 11 ∧
    (ascii "/tokens.txt").length = 11 ∧ (ascii "/espeak-ng-data").length = 15 ∧
    (ascii "/dict").length = 5 := by decide

/-- The synthesizer is created with the configuration of lines 258-280. -/
theorem synthesize_config (env : Env) (st : Args) (code : Int) (trace : List Event)
    (h : synthesize env st = some (code, trace)) (config : SherpaOnnxOfflineTtsConfig)
    (ok : Bool) (hg : Event.SherpaOnnxCreateOfflineTts config ok ∈ trace) :
    config = mkConfig st := by
  have aux : ∀ l : List Event, (∀ e ∈ l, e.isAux = true) →
      Event.SherpaOnnxCreateOfflineTts config ok ∉ l := fun l hl hm => by
    have := hl _ hm
    simp [Event.isAux] at this
  unfold synthesize at h
  split at h
  · simp only [Option.some.injEq, Prod.mk.injEq] at h
    obtain ⟨rfl, rfl⟩ := h
    simp at hg
  · simp only [NormalizeTextInPlace_eq, Option.bind_eq_bind, Option.some_bind] at h
    split_ifs at h with hc
    · simp only [Option.some.injEq, Prod.mk.injEq] at h
      obtain ⟨rfl, rfl⟩ := h
      simp at hg
      exact hg.1
    · split at h
      · simp only [Option.some.injEq, Prod.mk.injEq] at h
        obtain ⟨rfl, rfl⟩ := h
        simp only [List.mem_append, List.mem_cons, List.mem_singleton, List.not_mem_nil,
          or_false] at hg
        rcases hg with ((((hg | hg) | hg) | hg | hg) | hg) | hg
        · simp only [Event.SherpaOnnxCreateOfflineTts.injEq] at hg
          exact hg.1
        · exact absurd hg (aux _ (startPlayback_aux env _))
        · exact absurd hg (aux _ (callbackEvents_aux env _ _))
        · cases hg
        · cases hg
        · exact absurd hg (aux _ (stopPlayback_aux env _))
        · cases hg
      · simp only [Option.some.injEq, Prod.mk.injEq] at h
        obtain ⟨rfl, rfl⟩ := h
        simp only [List.mem_append, List.mem_cons, List.mem_singleton, List.not_mem_nil,
          or_false] at hg
        rcases hg with (((((hg | hg) | hg) | hg | hg) | hg) | hg | hg) | hg
        · simp only [Event.SherpaOnnxCreateOfflineTts.injEq] at hg
          exact hg.1
        · exact absurd hg (aux _ (startPlayback_aux env _))
        · exact absurd hg (aux _ (callbackEvents_aux env _ _))
        · cases hg
        · cases hg
        · exact absurd hg (aux _ (stopPlayback_aux env _))
        · cases hg
        · cases hg
        · exact absurd hg (aux _ (summary_aux _ _))

/-- C8 (amended): for every model directory `d` short enough for each formatted
path to fit its 4096-byte buffer (`d.length + 15 < 4096`), the paths in the
configuration with which the synthesizer is created are `d` followed by
`/model.onnx`, `/voices.bin`, `/tokens.txt`, `/espeak-ng-data` and `/dict`; they
are the same for all option values with the same model directory. -/
theorem mkConfig_paths (st : Args) (hfit : st.model_dir.length + 15 < 4096) :
    ((mkConfig st).model = st.model_dir ++ ascii "/model.onnx" ∧
     (mkConfig st).voices = st.model_dir ++ ascii "/voices.bin" ∧
     (mkConfig st).tokens = st.model_dir ++ ascii "/tokens.txt" ∧
     (mkConfig st).data_dir = st.model_dir ++ ascii "/espeak-ng-data" ∧
     (mkConfig st).dict_dir = st.model_dir ++ ascii "/dict") ∧
    (∀ st1 : Args, st1.model_dir = st.model_dir →
      (mkConfig st1).model = (mkConfig st).model ∧
      (mkConfig st1).voices = (mkConfig st).voices ∧
      (mkConfig st1).tokens = (mkConfig st).tokens ∧
      (mkConfig st1).data_dir = (mkConfig st).data_dir ∧
      (mkConfig st1).dict_dir = (mkConfig st).dict_dir) ∧
    (∀ (env : Env) (code : Int) (trace : List Event) (config : SherpaOnnxOfflineTtsConfig)
      (ok : Bool), synthesize env st = some (code, trace) →
      Event.SherpaOnnxCreateOfflineTts config ok ∈ trace → config = mkConfig st) := by
  obtain ⟨l1, l2, l3, l4, l5⟩ := suffix_lengths
  refine ⟨⟨?_, ?_, ?_, ?_, ?_⟩, ?_, ?_⟩
  · exact snprintf_fits _ _ (by rw [List.length_append, l1]; omega)
  · exact snprintf_fits _ _ (by rw [List.length_append, l2]; omega)
  · exact snprintf_fits _ _ (by rw [List.length_append, l3]; omega)
  · exact snprintf_fits _ _ (by rw [List.length_append, l4]; omega)
  · exact snprintf_fits _ _ (by rw [List.length_append, l5]; omega)
  · intro st1 h1
    simp only [mkConfig, h1, and_self]
  · intro env code trace config ok h hg
    exact synthesize_config env st code trace h config ok hg

/-- Witness for C8: the default model directory. -/
theorem mkConfig_paths_witness :
    (mkConfig Args.init).model = ascii "./kokoro-multi-lang-v1_1" ++ ascii "/model.onnx" :=
  (mkConfig_paths Args.init (by decide)).1.1

/-- Counterexample for C8: for a model directory of 4090 bytes the model path in
the configuration is cut to 4095 bytes and is not the directory followed by
`/model.onnx`. -/
theorem mkConfig_model_truncated :
    (mkConfig { Args.init with model_dir := List.replicate 4090 97 }).model ≠
      List.replicate 4090 97 ++ ascii "/model.onnx" := by
  intro h
  have hl := congrArg List.length h
  simp only [mkConfig, snprintf, List.length_take, List.length_append, List.length_replicate,
    suffix_lengths.1] at hl
  omega

/-- C1: evaluation at the failing input. For the text consisting of the right
single quotation mark E2 80 99, `NormalizeTextInPlace` leaves the text as it is,
so the output still holds one occurrence of a mapped source sequence. -/
theorem NormalizeTextInPlace_keeps_quotation_mark :
    NormalizeTextInPlace [0xE2, 0x80, 0x99] = some [0xE2, 0x80, 0x99] ∧
    [0xE2, 0x80, 0x99] ∈ mappedSources ∧
    occurrences [0xE2, 0x80, 0x99] [0xE2, 0x80, 0x99] = 1 := by decide

/-- C2: evaluation at the failing input. For the text file of the end-to-end
example and the arguments `--sid 0 --no-playback --output out.wav`, the text
handed to the synthesizer is the unchanged input, not `Hello "world".`. -/
theorem main_hello_text_unchanged :
    NormalizeTextInPlace helloText = some helloText ∧ helloText ≠ helloAscii ∧
    ∃ trace, main (sampleEnv helloText true (some sampleAudio) true)
        [ascii "prog", ascii "--sid", ascii "0", ascii "--no-playback", ascii "--output",
         ascii "out.wav"] = some (0, trace) ∧
      Event.generate helloText 0 (CFloat.finite 1) true ∈ trace :=
  ⟨by decide, by decide, _, rfl, by decide⟩

/-- C4: evaluation at the failing input. In a run in which `SherpaOnnxWriteWave`
reports failure, `main` still prints `Saved to:` and returns 0. -/
theorem main_write_failure_exit_zero :
    ∃ trace, main (sampleEnv helloText true (some sampleAudio) false) [ascii "prog"]
        = some (0, trace) ∧
      Event.SherpaOnnxWriteWave [0, 1] 2 24000 (ascii "./generated-kokoro-zh-en.wav") false
        ∈ trace ∧
      Event.fprintf "Saved to: %s\n" [Arg.str (ascii "./generated-kokoro-zh-en.wav")] ∈ trace :=
  ⟨_, rfl, by decide, by decide⟩

end Kokoro
